import Mathlib

/-!
Formal model of the validated encryption/decryption contract layer of the
nestjs-crypto library: the error taxonomy (src/lib/errors/crypto.error.ts),
the validation and normalization helpers (src/lib/utils/validation.ts),
the AES facade (AesService) and the bcrypt facade (BcryptService).

The external cryptographic primitives (the platform cipher reached through
createCipheriv/createDecipheriv, the bcrypt algorithm, and the secure random
source behind randomBytes) are not code of this repository; where a claim
depends on them they are modelled from the spec, and every such definition
carries a doc comment saying so.  Randomness is made explicit: the byte
sequences that randomBytes would produce are passed to the services as
arguments, so one call of a service is one application of a pure function.
-/

/-- The error taxonomy of crypto.error.ts.  Each typed class carries its
message and an optional wrapped underlying cause.  The jsRawError constructor
stands for a raw platform error that is none of the typed classes (for example
the error thrown by the decipher on a failed decryption). -/
inductive CryptoErr where
  | validation (msg : String) (cause : Option CryptoErr)
  | invalidKey (msg : String) (cause : Option CryptoErr)
  | encryption (msg : String) (cause : Option CryptoErr)
  | decryption (msg : String) (cause : Option CryptoErr)
  | hashing (msg : String) (cause : Option CryptoErr)
  | jsRawError (msg : String)

/-- Tests whether an Except value is an error of the ValidationError class. -/
def isValidationFailure {α : Type} : Except CryptoErr α → Bool
  | .error (.validation _ _) => true
  | _ => false

/-- Tests whether an Except value is an error of the InvalidKeyError class. -/
def isInvalidKeyFailure {α : Type} : Except CryptoErr α → Bool
  | .error (.invalidKey _ _) => true
  | _ => false

/-- Tests whether an Except value is an error of the EncryptionError class. -/
def isEncryptionFailure {α : Type} : Except CryptoErr α → Bool
  | .error (.encryption _ _) => true
  | _ => false

/-- Tests whether an Except value is an error of the DecryptionError class. -/
def isDecryptionFailure {α : Type} : Except CryptoErr α → Bool
  | .error (.decryption _ _) => true
  | _ => false

/-- Tests whether an Except value carries a success. -/
def exceptIsOk {α : Type} : Except CryptoErr α → Bool
  | .ok _ => true
  | .error _ => false

/-- The character class of the JavaScript regular expression \s, used by
String.prototype.trim: the source test value.trim().length === 0 holds exactly
when every character of the value is one of these. -/
def jsIsWhitespace (c : Char) : Bool :=
  c = ' ' || c = '\t' || c = '\n' || c = '\r' ||
  c.toNat = 0x0B || c.toNat = 0x0C || c.toNat = 0xA0 || c.toNat = 0x1680 ||
  (0x2000 ≤ c.toNat && c.toNat ≤ 0x200A) ||
  c.toNat = 0x2028 || c.toNat = 0x2029 || c.toNat = 0x202F ||
  c.toNat = 0x205F || c.toNat = 0x3000 || c.toNat = 0xFEFF

/-- Translation of validateNonEmptyString from validation.ts.  The typeof
check of the source cannot fail here because the model input is already a
string; the trim().length === 0 test is rendered as all characters being
JavaScript whitespace. -/
def validateNonEmptyString (value : String) (fieldName : String) : Except CryptoErr Unit :=
  if value.data.all jsIsWhitespace then
    .error (.validation (fieldName ++ " cannot be empty") none)
  else
    .ok ()

/-- The character class of the source regular expression for hex material,
namely [0-9a-fA-F]. -/
def isHexDigitChar (c : Char) : Bool :=
  ('0' ≤ c && c ≤ '9') || ('a' ≤ c && c ≤ 'f') || ('A' ≤ c && c ≤ 'F')

/-- Numeric value of one hex digit character. -/
def hexDigitVal (c : Char) : Nat :=
  if '0' ≤ c && c ≤ '9' then c.toNat - '0'.toNat
  else if 'a' ≤ c && c ≤ 'f' then c.toNat - 'a'.toNat + 10
  else c.toNat - 'A'.toNat + 10

/-- The lowercase hex digit for a value below 16, as produced by
Buffer.prototype.toString with the hex encoding. -/
def hexDigitChar (n : Nat) : Char :=
  if n < 10 then Char.ofNat ('0'.toNat + n) else Char.ofNat ('a'.toNat + n - 10)

/-- Character list of the hex rendering of a byte list, two digits per byte. -/
def hexChars : List Nat → List Char
  | [] => []
  | b :: bs => hexDigitChar (b / 16) :: hexDigitChar (b % 16) :: hexChars bs

/-- Model of Buffer.prototype.toString with the hex encoding. -/
def hexEncode (l : List Nat) : String := ⟨hexChars l⟩

/-- Byte list read from a character list two hex digits at a time; a trailing
odd digit is dropped, as Buffer.from with the hex encoding drops it. -/
def hexPairs : List Char → List Nat
  | c1 :: c2 :: rest => (hexDigitVal c1 * 16 + hexDigitVal c2) :: hexPairs rest
  | _ => []

/-- Model of Buffer.from with the hex encoding, applied to strings the source
has already validated as even-length hex. -/
def hexDecode (s : String) : List Nat := hexPairs s.data

/-- The union type Buffer | string taken by key material parameters.  A buffer
is a byte list; a string is kept as given and decoded from hex after
validation. -/
inductive KeyInput where
  | buf (bytes : List Nat)
  | str (s : String)
deriving DecidableEq, Repr

/-- JavaScript truthiness of an optional Buffer | string value, as used by the
tests key ? ... : ... in AesService.encrypt: undefined is falsy, the empty
string is falsy, every other string and every buffer object is truthy. -/
def jsTruthy : Option KeyInput → Bool
  | none => false
  | some (.buf _) => true
  | some (.str s) => !s.isEmpty

/-- Translation of validateAndConvertToBuffer from validation.ts: undefined
passes through, a buffer is used as is, a string must be even-length hex and
is decoded, and an expected length mismatch is a hard InvalidKeyError. -/
def validateAndConvertToBuffer (value : Option KeyInput) (fieldName : String)
    (expectedLength : Option Nat) : Except CryptoErr (Option (List Nat)) :=
  match value with
  | none => .ok none
  | some v =>
    match (match v with
      | .buf b => (.ok b : Except CryptoErr (List Nat))
      | .str s =>
        if !(s.data.all isHexDigitChar) then
          .error (.invalidKey (fieldName ++ " must be a valid hexadecimal string") none)
        else if s.data.length % 2 ≠ 0 then
          .error (.invalidKey (fieldName ++ " hex string must have even length") none)
        else .ok (hexDecode s)) with
    | .error e => .error e
    | .ok buffer =>
      match expectedLength with
      | none => .ok (some buffer)
      | some L =>
        if buffer.length ≠ L then
          .error (.invalidKey (fieldName ++ " must be " ++ toString L ++
            " bytes, received " ++ toString buffer.length ++ " bytes") none)
        else .ok (some buffer)

/-- A JavaScript number as far as the validators inspect one: not a number at
all is excluded by the model input type, so the cases are NaN, the two
infinities, and a finite value rendered as a rational. -/
inductive JSNum where
  | nan
  | posInf
  | negInf
  | fin (q : ℚ)
deriving DecidableEq, Repr

/-- Model of Number.isFinite. -/
def JSNum.isFinite : JSNum → Bool
  | .fin _ => true
  | _ => false

/-- Model of Number.isInteger. -/
def JSNum.isInteger : JSNum → Bool
  | .fin q => q.den == 1
  | _ => false

/-- Model of the JavaScript comparison value <= 0; comparisons on NaN are
false. -/
def JSNum.leZero : JSNum → Bool
  | .fin q => decide (q ≤ 0)
  | .negInf => true
  | _ => false

/-- Model of the JavaScript comparison value < bound for a rational bound. -/
def JSNum.ltQ : JSNum → ℚ → Bool
  | .fin q, bound => decide (q < bound)
  | .negInf, _ => true
  | _, _ => false

/-- Model of the JavaScript comparison value > bound for a rational bound. -/
def JSNum.gtQ : JSNum → ℚ → Bool
  | .fin q, bound => decide (bound < q)
  | .posInf, _ => true
  | _, _ => false

/-- Translation of validatePositiveNumber from validation.ts.  The typeof
check cannot fail on the model input type. -/
def validatePositiveNumber (value : JSNum) (fieldName : String) : Except CryptoErr Unit :=
  if !value.isFinite then
    .error (.validation (fieldName ++ " must be a finite number") none)
  else if value.leZero then
    .error (.validation (fieldName ++ " must be positive") none)
  else
    .ok ()

/-- Translation of validateIntegerInRange from validation.ts. -/
def validateIntegerInRange (value : JSNum) (fieldName : String) (min max : ℚ) :
    Except CryptoErr Unit :=
  match validatePositiveNumber value fieldName with
  | .error e => .error e
  | .ok _ =>
    if !value.isInteger then
      .error (.validation (fieldName ++ " must be an integer") none)
    else if value.ltQ min || value.gtQ max then
      .error (.validation (fieldName ++ " must be between the given bounds") none)
    else
      .ok ()

/-- The character class [./A-Za-z0-9] of the bcrypt salt-plus-digest block. -/
def isBcryptSaltDigestChar (c : Char) : Bool :=
  c = '.' || c = '/' || c.isAlpha || c.isDigit

/-- Decision procedure for the source regular expression
for bcrypt hashes: a dollar sign, the character 2, one of a b y, a dollar
sign, exactly two decimal digits, a dollar sign, and exactly 53 characters
from the salt-plus-digest class. -/
def matchesBcryptFormat (s : String) : Bool :=
  match s.data with
  | '$' :: '2' :: v :: '$' :: d1 :: d2 :: '$' :: rest =>
    (v == 'a' || v == 'b' || v == 'y') && d1.isDigit && d2.isDigit &&
      rest.length == 53 && rest.all isBcryptSaltDigestChar
  | _ => false

/-- Translation of validateBcryptHash from validation.ts. -/
def validateBcryptHash (hash : String) : Except CryptoErr Unit :=
  match validateNonEmptyString hash "hash" with
  | .error e => .error e
  | .ok _ =>
    if !matchesBcryptFormat hash then
      .error (.validation "Invalid bcrypt hash format. Expected format: $2a$10$..." none)
    else
      .ok ()

/-- Translation of validateEncryptedData from validation.ts: non-empty after
trimming and matching the anchored regular expression of one or more hex
digits. -/
def validateEncryptedData (data : String) : Except CryptoErr Unit :=
  match validateNonEmptyString data "encrypted data" with
  | .error e => .error e
  | .ok _ =>
    if !(data.data.all isHexDigitChar && !data.data.isEmpty) then
      .error (.validation "Encrypted data must be a valid hexadecimal string" none)
    else
      .ok ()

/-- Model of the UTF-8 encoding of one unicode scalar value.  The encoding is
performed by the platform inside cipher.update(data, utf8), outside this
repository; the model is the standard 1-to-4 byte encoding. -/
def utf8EncodeChar (c : Nat) : List Nat :=
  if c < 0x80 then [c]
  else if c < 0x800 then [0xC0 + c / 64, 0x80 + c % 64]
  else if c < 0x10000 then [0xE0 + c / 4096, 0x80 + c / 64 % 64, 0x80 + c % 64]
  else [0xF0 + c / 262144, 0x80 + c / 4096 % 64, 0x80 + c / 64 % 64, 0x80 + c % 64]

/-- UTF-8 encoding of a character list. -/
def utf8EncodeList : List Char → List Nat
  | [] => []
  | c :: cs => utf8EncodeChar c.toNat ++ utf8EncodeList cs

/-- Model of Buffer.from(data, utf8) on a string. -/
def utf8Encode (s : String) : List Nat := utf8EncodeList s.data

/-- UTF-8 decoding of a byte list into unicode scalar values, with a fuel
argument bounding the number of decoded scalars; none signals a malformed
byte sequence or exhausted fuel.  One unit of fuel is spent per scalar, and a
scalar occupies at least one byte, so fuel equal to the byte count always
suffices. -/
def utf8DecodeFuel : Nat → List Nat → Option (List Nat)
  | _, [] => some []
  | 0, _ :: _ => none
  | fuel + 1, b0 :: rest =>
    if b0 < 0x80 then (utf8DecodeFuel fuel rest).map (b0 :: ·)
    else if b0 < 0xC0 then none
    else if b0 < 0xE0 then
      match rest with
      | b1 :: rest2 =>
        if 0x80 ≤ b1 ∧ b1 < 0xC0 then
          (utf8DecodeFuel fuel rest2).map (((b0 - 0xC0) * 64 + (b1 - 0x80)) :: ·)
        else none
      | [] => none
    else if b0 < 0xF0 then
      match rest with
      | b1 :: b2 :: rest3 =>
        if (0x80 ≤ b1 ∧ b1 < 0xC0) ∧ (0x80 ≤ b2 ∧ b2 < 0xC0) then
          (utf8DecodeFuel fuel rest3).map
            (((b0 - 0xE0) * 4096 + (b1 - 0x80) * 64 + (b2 - 0x80)) :: ·)
        else none
      | _ => none
    else if b0 < 0xF8 then
      match rest with
      | b1 :: b2 :: b3 :: rest4 =>
        if (0x80 ≤ b1 ∧ b1 < 0xC0) ∧ (0x80 ≤ b2 ∧ b2 < 0xC0) ∧ (0x80 ≤ b3 ∧ b3 < 0xC0) then
          (utf8DecodeFuel fuel rest4).map
            (((b0 - 0xF0) * 262144 + (b1 - 0x80) * 4096 +
              (b2 - 0x80) * 64 + (b3 - 0x80)) :: ·)
        else none
      | _ => none
    else none

/-- UTF-8 decoding of a byte list into unicode scalar values. -/
def utf8Decode (l : List Nat) : Option (List Nat) := utf8DecodeFuel l.length l

/-- String built from a list of unicode scalar values. -/
def scalarsToString (l : List Nat) : String := ⟨l.map Char.ofNat⟩

/-- Model of Buffer.prototype.toString with the utf8 encoding; an invalid byte
sequence is collapsed to the empty string here, standing for the replacement
behaviour of the platform decoder (no claim exercises that path). -/
def utf8DecodeString (l : List Nat) : String :=
  match utf8Decode l with
  | some cs => scalarsToString cs
  | none => ""

/-- Pointwise xor of two byte lists, truncated to the shorter one. -/
def zipXor (a b : List Nat) : List Nat := List.zipWith (· ^^^ ·) a b

/-- Modelled from the spec: the AES-256-CBC primitive itself is not code of
this repository — AesService delegates it to the platform through
createCipheriv and createDecipheriv.  The spec describes the primitive only
through its contract: a keyed, IV-dependent, reversible transformation
(glossary: reversible by design) whose decryption throws for a wrong key,
wrong IV, or corrupted ciphertext (sections 4.4 and 8 list wrong key, wrong
IV, corrupted ciphertext and padding failure as the decipher failures).  The
model keeps exactly those properties: a keystream derived from key and IV
masks the plaintext bytes, and a 48-byte header derived from key and IV lets
the decipher detect a mismatch and fail, playing the role of the padding
check of the real cipher.  This keystream derives one masking byte per
position from the key, the IV and the position. -/
def cipherKeyStream (key iv : List Nat) (n : Nat) : List Nat :=
  (List.range n).map (fun i => (key.getD (i % 32) 0 + 3 * iv.getD (i % 16) 0 + 7 * i + 11) % 256)

/-- Modelled from the spec: fixed masking stream for the 48-byte header of
the model cipher. -/
def cipherHeaderStream : List Nat := (List.range 48).map (fun i => (19 * i + 5) % 256)

/-- Modelled from the spec: the 48-byte header of the model cipher, a value
deterministically derived from key and IV that the model decipher checks. -/
def cipherHeader (key iv : List Nat) : List Nat := zipXor (key ++ iv) cipherHeaderStream

/-- Modelled from the spec: byte-level encryption of the model cipher
standing for the platform AES-256-CBC encryption. -/
def aesCbcEncryptBytes (key iv pt : List Nat) : List Nat :=
  cipherHeader key iv ++ zipXor pt (cipherKeyStream key iv pt.length)

/-- Modelled from the spec: byte-level decryption of the model cipher; an
error value stands for the throw of decipher.final on a failed decryption. -/
def aesCbcDecryptBytes (key iv ct : List Nat) : Except String (List Nat) :=
  if ct.take 48 = cipherHeader key iv ∧ 48 ≤ ct.length then
    .ok (zipXor (ct.drop 48) (cipherKeyStream key iv (ct.length - 48)))
  else
    .error "bad decrypt"

/-- The result object of AesService.encrypt: encrypted data, key and IV, each
a hex string. -/
structure EncryptedResult where
  encrypted : String
  key : String
  iv : String
deriving DecidableEq, Repr

/-- The catch block of AesService.encrypt: InvalidKeyError and
EncryptionError are rethrown as they are, every other error — including a
ValidationError raised by the input checks — is wrapped into a new
EncryptionError with the original error as cause. -/
def wrapEncryptCatch {α : Type} : Except CryptoErr α → Except CryptoErr α
  | .ok a => .ok a
  | .error e =>
    match e with
    | .invalidKey _ _ => .error e
    | .encryption _ _ => .error e
    | _ => .error (.encryption "Failed to encrypt data" (some e))

/-- The catch block of AesService.decrypt: InvalidKeyError and
DecryptionError are rethrown as they are, every other error — including a
ValidationError raised by the input checks — is wrapped into a new
DecryptionError with the original error as cause. -/
def wrapDecryptCatch {α : Type} : Except CryptoErr α → Except CryptoErr α
  | .ok a => .ok a
  | .error e =>
    match e with
    | .invalidKey _ _ => .error e
    | .decryption _ _ => .error e
    | _ => .error (.decryption
        "Failed to decrypt data. Ensure the key, IV, and encrypted data are correct."
        (some e))

/-- The catch blocks of the BcryptService methods: ValidationError and
HashingError are rethrown as they are, every other error is wrapped into a
new HashingError with the given message and the original error as cause. -/
def wrapHashingCatch {α : Type} (msg : String) : Except CryptoErr α → Except CryptoErr α
  | .ok a => .ok a
  | .error e =>
    match e with
    | .validation _ _ => .error e
    | .hashing _ _ => .error e
    | _ => .error (.hashing msg (some e))

/-- Translation of AesService.encrypt.  The byte lists genKey and genIv model
the output of randomBytes for this call, consumed only when the key or IV
argument is not truthy; the cipher delegate is the spec-modelled
aesCbcEncryptBytes. -/
def AesService.encrypt (genKey genIv : List Nat) (data : String)
    (key iv : Option KeyInput) : Except CryptoErr EncryptedResult :=
  wrapEncryptCatch (
    match validateNonEmptyString data "data" with
    | .error e => .error e
    | .ok _ =>
      match (if jsTruthy key then
          (validateAndConvertToBuffer key "key" (some 32)).map (fun o => o.getD [])
        else .ok genKey) with
      | .error e => .error e
      | .ok encryptionKey =>
        match (if jsTruthy iv then
            (validateAndConvertToBuffer iv "IV" (some 16)).map (fun o => o.getD [])
          else .ok genIv) with
        | .error e => .error e
        | .ok initializationVector =>
          .ok { encrypted := hexEncode (aesCbcEncryptBytes encryptionKey
                  initializationVector (utf8Encode data)),
                key := hexEncode encryptionKey,
                iv := hexEncode initializationVector })

/-- Translation of AesService.decrypt; both key and IV are required hex
strings, and a failure of the spec-modelled decipher surfaces as a raw
platform error that the catch block wraps into a DecryptionError. -/
def AesService.decrypt (encryptedData key iv : String) : Except CryptoErr String :=
  wrapDecryptCatch (
    match validateEncryptedData encryptedData with
    | .error e => .error e
    | .ok _ =>
      match (validateAndConvertToBuffer (some (.str key)) "key" (some 32)).map
          (fun o => o.getD []) with
      | .error e => .error e
      | .ok decryptionKey =>
        match (validateAndConvertToBuffer (some (.str iv)) "IV" (some 16)).map
            (fun o => o.getD []) with
        | .error e => .error e
        | .ok initializationVector =>
          match aesCbcDecryptBytes decryptionKey initializationVector
              (hexDecode encryptedData) with
          | .ok ptBytes => .ok (utf8DecodeString ptBytes)
          | .error msg => .error (.jsRawError msg))

/-- Translation of AesService.encryptSync, which delegates to encrypt. -/
def AesService.encryptSync (genKey genIv : List Nat) (data : String)
    (key iv : Option KeyInput) : Except CryptoErr EncryptedResult :=
  AesService.encrypt genKey genIv data key iv

/-- Translation of AesService.decryptSync, which delegates to decrypt. -/
def AesService.decryptSync (encryptedData key iv : String) : Except CryptoErr String :=
  AesService.decrypt encryptedData key iv

/-- Modelled from the spec: the hash string produced by the external bcrypt
algorithm — the documented structural format with version marker, two cost
digits and a 53-character salt-plus-digest block (section 3, Password hash).
The algorithm itself is an external library, not code of this repository. -/
def bcryptAlgoHash (data : String) (saltRounds : Nat) : String :=
  "$2b$" ++ (if saltRounds < 10 then "0" ++ toString saltRounds else toString saltRounds) ++
    "$" ++ String.mk (List.replicate 26 'e' ++ data.data.take 1 ++
      List.replicate (27 - (data.data.take 1).length) 'e')

/-- Modelled from the spec: bcrypt.getRounds, which parses the two cost
digits out of the hash string. -/
def bcryptGetRounds (encrypted : String) : Nat :=
  match encrypted.data with
  | _ :: _ :: _ :: _ :: d1 :: d2 :: _ =>
    (d1.toNat - '0'.toNat) * 10 + (d2.toNat - '0'.toNat)
  | _ => 0

/-- Modelled from the spec: bcrypt.compare, true exactly when rehashing the
candidate at the cost recorded in the stored hash reproduces the stored
hash. -/
def bcryptAlgoCompare (data : String) (encrypted : String) : Bool :=
  bcryptAlgoHash data (bcryptGetRounds encrypted) == encrypted

/-- Truncation of a finite JavaScript number to a natural number, used where
the source passes an already validated integer to the bcrypt library. -/
def JSNum.toNatFloor : JSNum → Nat
  | .fin q => q.num.toNat
  | _ => 0

/-- Translation of BcryptService.hash.  The second component carries the
warning messages the source emits through the logger, making the
lower-severity report for salt rounds below the recommended 12 observable;
the bcrypt delegate is the spec-modelled bcryptAlgoHash. -/
def BcryptService.hash (data : String) (saltRounds : JSNum) :
    Except CryptoErr String × List String :=
  match (match validateNonEmptyString data "data" with
    | .error e => (.error e : Except CryptoErr Unit)
    | .ok _ => validateIntegerInRange saltRounds "saltRounds" 4 31) with
  | .error e => (wrapHashingCatch "Failed to hash data" (.error e), [])
  | .ok _ =>
    (.ok (bcryptAlgoHash data saltRounds.toNatFloor),
      if saltRounds.ltQ 12 then ["Salt rounds below recommended value"] else [])

/-- Translation of BcryptService.compare; the bcrypt delegate is the
spec-modelled bcryptAlgoCompare. -/
def BcryptService.compare (data encrypted : String) : Except CryptoErr Bool :=
  wrapHashingCatch "Failed to compare data with hash" (
    match validateNonEmptyString data "data" with
    | .error e => .error e
    | .ok _ =>
      match validateBcryptHash encrypted with
      | .error e => .error e
      | .ok _ => .ok (bcryptAlgoCompare data encrypted))

/-- Translation of BcryptService.getSaltRounds; the bcrypt delegate is the
spec-modelled bcryptGetRounds. -/
def BcryptService.getSaltRounds (encrypted : String) : Except CryptoErr Nat :=
  wrapHashingCatch "Failed to get salt rounds from hash" (
    match validateBcryptHash encrypted with
    | .error e => .error e
    | .ok _ => .ok (bcryptGetRounds encrypted))

/-- Well-formedness of a key material input as far as hex decoding goes: a
buffer always decodes to itself, a string must be even-length hex. -/
def keyInputWellFormed : KeyInput → Prop
  | .buf _ => True
  | .str s => s.data.all isHexDigitChar = true ∧ s.data.length % 2 = 0

/-- The decoded byte length of a well-formed key material input. -/
def keyInputByteLength : KeyInput → Nat
  | .buf b => b.length
  | .str s => s.data.length / 2

/-- The key field of an encrypt result, or the empty string on error. -/
def resultKeyHex : Except CryptoErr EncryptedResult → String
  | .ok r => r.key
  | .error _ => ""

/-- The non-integer rational seven halves, given by its reduced fraction so
that its denominator is kernel-computable. -/
def sevenHalves : ℚ := ⟨7, 2, by decide, by decide⟩

theorem hexDigitVal_hexDigitChar : ∀ n < 16, hexDigitVal (hexDigitChar n) = n := by decide

theorem isHexDigitChar_hexDigitChar : ∀ n < 16, isHexDigitChar (hexDigitChar n) = true := by
  decide

theorem not_ws_hexDigitChar : ∀ n < 16, jsIsWhitespace (hexDigitChar n) = false := by decide

theorem hexPairs_hexChars (l : List Nat) (h : ∀ b ∈ l, b < 256) :
    hexPairs (hexChars l) = l := by
  induction l with
  | nil => rfl
  | cons b bs ih =>
    have hb : b < 256 := h b (List.mem_cons_self b bs)
    have h1 : b / 16 < 16 := by omega
    have h2 : b % 16 < 16 := by omega
    simp only [hexChars, hexPairs]
    rw [hexDigitVal_hexDigitChar _ h1, hexDigitVal_hexDigitChar _ h2,
      ih (fun x hx => h x (List.mem_cons_of_mem b hx))]
    congr 1
    omega

theorem hexChars_length (l : List Nat) : (hexChars l).length = 2 * l.length := by
  induction l with
  | nil => rfl
  | cons b bs ih => simp [hexChars, ih]; omega

theorem hexChars_all_hex (l : List Nat) (h : ∀ b ∈ l, b < 256) :
    (hexChars l).all isHexDigitChar = true := by
  induction l with
  | nil => rfl
  | cons b bs ih =>
    have hb : b < 256 := h b (List.mem_cons_self b bs)
    simp only [hexChars, List.all_cons, Bool.and_eq_true]
    refine ⟨isHexDigitChar_hexDigitChar _ (by omega), isHexDigitChar_hexDigitChar _ (by omega),
      ih (fun x hx => h x (List.mem_cons_of_mem b hx))⟩

theorem hexChars_not_all_ws (b : Nat) (bs : List Nat) (hb : b < 256) :
    (hexChars (b :: bs)).all jsIsWhitespace = false := by
  simp only [hexChars, List.all_cons, Bool.and_eq_false_iff]
  left
  exact not_ws_hexDigitChar _ (by omega)

theorem hexPairs_length : ∀ cs : List Char, (hexPairs cs).length = cs.length / 2
  | [] => by simp [hexPairs]
  | [c] => by simp [hexPairs]
  | c1 :: c2 :: rest => by
    simp only [hexPairs, List.length_cons, hexPairs_length rest]
    omega

theorem utf8EncodeChar_lt_256 (c : Nat) (hv : c < 0x110000) :
    ∀ b ∈ utf8EncodeChar c, b < 256 := by
  intro b hb
  by_cases h1 : c < 0x80
  · simp [utf8EncodeChar, h1] at hb; omega
  · by_cases h2 : c < 0x800
    · simp [utf8EncodeChar, h1, h2] at hb; rcases hb with h | h <;> omega
    · by_cases h3 : c < 0x10000
      · simp [utf8EncodeChar, h1, h2, h3] at hb; rcases hb with h | h | h <;> omega
      · simp [utf8EncodeChar, h1, h2, h3] at hb; rcases hb with h | h | h | h <;> omega

theorem utf8EncodeChar_length_pos (c : Nat) : 0 < (utf8EncodeChar c).length := by
  unfold utf8EncodeChar
  repeat' split
  all_goals simp

theorem utf8DecodeFuel_encodeChar (c : Nat) (hv : c < 0x110000) (fuel : Nat)
    (rest : List Nat) :
    utf8DecodeFuel (fuel + 1) (utf8EncodeChar c ++ rest) =
      (utf8DecodeFuel fuel rest).map (c :: ·) := by
  by_cases h1 : c < 0x80
  · simp only [utf8EncodeChar, if_pos h1, List.cons_append, List.nil_append]
    rcases rest with _ | ⟨b1, _ | ⟨b2, _ | ⟨b3, rest4⟩⟩⟩ <;>
      simp only [utf8DecodeFuel, if_pos h1]
  · by_cases h2 : c < 0x800
    · have e1 : ¬ (0xC0 + c / 64 < 0x80) := by omega
      have e2 : ¬ (0xC0 + c / 64 < 0xC0) := by omega
      have e3 : 0xC0 + c / 64 < 0xE0 := by omega
      have e4 : 0x80 ≤ 0x80 + c % 64 ∧ 0x80 + c % 64 < 0xC0 := by omega
      have ev : (0xC0 + c / 64 - 0xC0) * 64 + (0x80 + c % 64 - 0x80) = c := by omega
      simp only [utf8EncodeChar, if_neg h1, if_pos h2, List.cons_append, List.nil_append]
      rw [utf8DecodeFuel, if_neg e1, if_neg e2, if_pos e3]
      simp only [if_pos e4, ev]
    · by_cases h3 : c < 0x10000
      · have e1 : ¬ (0xE0 + c / 4096 < 0x80) := by omega
        have e2 : ¬ (0xE0 + c / 4096 < 0xC0) := by omega
        have e3 : ¬ (0xE0 + c / 4096 < 0xE0) := by omega
        have e4 : 0xE0 + c / 4096 < 0xF0 := by omega
        have e5 : (0x80 ≤ 0x80 + c / 64 % 64 ∧ 0x80 + c / 64 % 64 < 0xC0) ∧
            (0x80 ≤ 0x80 + c % 64 ∧ 0x80 + c % 64 < 0xC0) := by omega
        have ev : (0xE0 + c / 4096 - 0xE0) * 4096 + (0x80 + c / 64 % 64 - 0x80) * 64 +
            (0x80 + c % 64 - 0x80) = c := by omega
        simp only [utf8EncodeChar, if_neg h1, if_neg h2, if_pos h3, List.cons_append,
          List.nil_append]
        rw [utf8DecodeFuel, if_neg e1, if_neg e2, if_neg e3, if_pos e4]
        simp only [if_pos e5, ev]
      · have e1 : ¬ (0xF0 + c / 262144 < 0x80) := by omega
        have e2 : ¬ (0xF0 + c / 262144 < 0xC0) := by omega
        have e3 : ¬ (0xF0 + c / 262144 < 0xE0) := by omega
        have e4 : ¬ (0xF0 + c / 262144 < 0xF0) := by omega
        have e5 : 0xF0 + c / 262144 < 0xF8 := by omega
        have e6 : (0x80 ≤ 0x80 + c / 4096 % 64 ∧ 0x80 + c / 4096 % 64 < 0xC0) ∧
            (0x80 ≤ 0x80 + c / 64 % 64 ∧ 0x80 + c / 64 % 64 < 0xC0) ∧
            (0x80 ≤ 0x80 + c % 64 ∧ 0x80 + c % 64 < 0xC0) := by omega
        have ev : (0xF0 + c / 262144 - 0xF0) * 262144 + (0x80 + c / 4096 % 64 - 0x80) * 4096 +
            (0x80 + c / 64 % 64 - 0x80) * 64 + (0x80 + c % 64 - 0x80) = c := by omega
        simp only [utf8EncodeChar, if_neg h1, if_neg h2, if_neg h3, List.cons_append,
          List.nil_append]
        rw [utf8DecodeFuel, if_neg e1, if_neg e2, if_neg e3, if_neg e4, if_pos e5]
        simp only [if_pos e6, ev]

theorem utf8EncodeList_length_ge (cs : List Char) :
    cs.length ≤ (utf8EncodeList cs).length := by
  induction cs with
  | nil => simp [utf8EncodeList]
  | cons c cs ih =>
    have := utf8EncodeChar_length_pos c.toNat
    simp only [utf8EncodeList, List.length_append, List.length_cons]
    omega

theorem utf8DecodeFuel_encodeList (cs : List Char) (extra : Nat) :
    utf8DecodeFuel (cs.length + extra) (utf8EncodeList cs) =
      some (cs.map Char.toNat) := by
  induction cs generalizing extra with
  | nil =>
    cases extra <;> rfl
  | cons c cs ih =>
    have hv : c.toNat < 0x110000 := by
      rcases (show c.toNat < 0xD800 ∨ (0xE000 ≤ c.toNat ∧ c.toNat < 0x110000) from c.valid)
        with h | h <;> omega
    have harith : (c :: cs).length + extra = (cs.length + extra) + 1 := by
      simp only [List.length_cons]; omega
    rw [harith]
    simp only [utf8EncodeList, List.map_cons]
    rw [utf8DecodeFuel_encodeChar c.toNat hv, ih]
    rfl

theorem utf8Decode_encodeList (cs : List Char) :
    utf8Decode (utf8EncodeList cs) = some (cs.map Char.toNat) := by
  unfold utf8Decode
  have hge := utf8EncodeList_length_ge cs
  have hsplit : (utf8EncodeList cs).length =
      cs.length + ((utf8EncodeList cs).length - cs.length) := by omega
  rw [hsplit, utf8DecodeFuel_encodeList]

theorem scalarsToString_map_toNat (s : String) :
    scalarsToString (s.data.map Char.toNat) = s := by
  simp only [scalarsToString, List.map_map]
  have : (Char.ofNat ∘ Char.toNat) = id := by
    funext c
    exact Char.ofNat_toNat c
  rw [this, List.map_id]

theorem utf8DecodeString_encode (s : String) : utf8DecodeString (utf8Encode s) = s := by
  simp only [utf8DecodeString, utf8Encode, utf8Decode_encodeList]
  exact scalarsToString_map_toNat s

theorem utf8EncodeList_lt_256 (cs : List Char) : ∀ b ∈ utf8EncodeList cs, b < 256 := by
  induction cs with
  | nil => intro b hb; simp [utf8EncodeList] at hb
  | cons c cs ih =>
    intro b hb
    simp only [utf8EncodeList, List.mem_append] at hb
    rcases hb with h | h
    · have hv : c.toNat < 0x110000 := by
        rcases (show c.toNat < 0xD800 ∨ (0xE000 ≤ c.toNat ∧ c.toNat < 0x110000) from c.valid)
          with hc | hc <;> omega
      exact utf8EncodeChar_lt_256 c.toNat hv b h
    · exact ih b h

theorem zipXor_length (a b : List Nat) : (zipXor a b).length = min a.length b.length := by
  simp [zipXor]

theorem zipXor_cancel : ∀ (a s : List Nat), a.length ≤ s.length →
    zipXor (zipXor a s) s = a
  | [], _, _ => rfl
  | a :: as, s0 :: ss, h => by
    simp only [zipXor, List.zipWith_cons_cons]
    rw [show (a ^^^ s0) ^^^ s0 = a from Nat.xor_cancel_right s0 a]
    have ih := zipXor_cancel as ss (by simpa using h)
    simp only [zipXor] at ih
    rw [ih]
  | a :: as, [], h => by simp at h

theorem zipXor_lt_256 : ∀ (a b : List Nat), (∀ x ∈ a, x < 256) → (∀ x ∈ b, x < 256) →
    ∀ x ∈ zipXor a b, x < 256
  | [], _, _, _ => by intro x hx; simp [zipXor] at hx
  | _ :: _, [], _, _ => by intro x hx; simp [zipXor] at hx
  | a :: as, b :: bs, ha, hb => by
    intro x hx
    simp only [zipXor, List.zipWith_cons_cons, List.mem_cons] at hx
    rcases hx with rfl | hx
    · have h1 : a < 256 := ha a (List.mem_cons_self a as)
      have h2 : b < 256 := hb b (List.mem_cons_self b bs)
      have h256 : (256 : Nat) = 2 ^ 8 := by norm_num
      rw [h256] at h1 h2 ⊢
      exact Nat.xor_lt_two_pow h1 h2
    · exact zipXor_lt_256 as bs (fun y hy => ha y (List.mem_cons_of_mem a hy))
        (fun y hy => hb y (List.mem_cons_of_mem b hy)) x hx

theorem zipXor_right_inj (s : List Nat) : ∀ u v, u.length = s.length →
    v.length = s.length → zipXor u s = zipXor v s → u = v := by
  induction s with
  | nil =>
    intro u v hu hv _
    rw [List.length_nil] at hu hv
    rw [List.eq_nil_of_length_eq_zero hu, List.eq_nil_of_length_eq_zero hv]
  | cons b bs ih =>
    intro u v hu hv heq
    cases u with
    | nil => simp at hu
    | cons x xs =>
      cases v with
      | nil => simp at hv
      | cons y ys =>
        simp only [zipXor, List.zipWith_cons_cons, List.cons.injEq] at heq
        obtain ⟨h1, h2⟩ := heq
        have hx : x = y := by
          have hc := congrArg (fun t => t ^^^ b) h1
          simpa [Nat.xor_cancel_right] using hc
        have htail : xs = ys := by
          refine ih xs ys (by simpa using hu) (by simpa using hv) ?_
          simpa [zipXor] using h2
        rw [hx, htail]

theorem cipherHeaderStream_length : cipherHeaderStream.length = 48 := by
  simp [cipherHeaderStream]

theorem cipherHeaderStream_lt_256 : ∀ x ∈ cipherHeaderStream, x < 256 := by
  intro x hx
  simp only [cipherHeaderStream, List.mem_map] at hx
  obtain ⟨i, _, rfl⟩ := hx
  exact Nat.mod_lt _ (by norm_num)

theorem cipherKeyStream_length (key iv : List Nat) (n : Nat) :
    (cipherKeyStream key iv n).length = n := by
  simp [cipherKeyStream]

theorem cipherKeyStream_lt_256 (key iv : List Nat) (n : Nat) :
    ∀ x ∈ cipherKeyStream key iv n, x < 256 := by
  intro x hx
  simp only [cipherKeyStream, List.mem_map] at hx
  obtain ⟨i, _, rfl⟩ := hx
  exact Nat.mod_lt _ (by norm_num)

theorem cipherHeader_length (key iv : List Nat) (hk : key.length = 32)
    (hiv : iv.length = 16) : (cipherHeader key iv).length = 48 := by
  simp [cipherHeader, zipXor, cipherHeaderStream_length, hk, hiv]

theorem cipherHeader_lt_256 (key iv : List Nat) (hkb : ∀ b ∈ key, b < 256)
    (hivb : ∀ b ∈ iv, b < 256) : ∀ x ∈ cipherHeader key iv, x < 256 := by
  refine zipXor_lt_256 (key ++ iv) cipherHeaderStream ?_ cipherHeaderStream_lt_256
  intro x hx
  rcases List.mem_append.mp hx with h | h
  · exact hkb x h
  · exact hivb x h

theorem cipherHeader_inj (key iv key2 iv2 : List Nat) (hk : key.length = 32)
    (hiv : iv.length = 16) (hk2 : key2.length = 32) (hiv2 : iv2.length = 16)
    (h : cipherHeader key iv = cipherHeader key2 iv2) : key = key2 ∧ iv = iv2 := by
  have happ : key ++ iv = key2 ++ iv2 := by
    refine zipXor_right_inj cipherHeaderStream (key ++ iv) (key2 ++ iv2) ?_ ?_ h
    · simp [cipherHeaderStream_length, hk, hiv]
    · simp [cipherHeaderStream_length, hk2, hiv2]
  exact List.append_inj happ (by rw [hk, hk2])

theorem aesCbcEncryptBytes_length (key iv pt : List Nat) (hk : key.length = 32)
    (hiv : iv.length = 16) :
    (aesCbcEncryptBytes key iv pt).length = 48 + pt.length := by
  simp [aesCbcEncryptBytes, cipherHeader_length key iv hk hiv, zipXor_length,
    cipherKeyStream_length]

theorem aesCbcEncryptBytes_lt_256 (key iv pt : List Nat) (hkb : ∀ b ∈ key, b < 256)
    (hivb : ∀ b ∈ iv, b < 256) (hpt : ∀ b ∈ pt, b < 256) :
    ∀ x ∈ aesCbcEncryptBytes key iv pt, x < 256 := by
  intro x hx
  rcases List.mem_append.mp hx with h | h
  · exact cipherHeader_lt_256 key iv hkb hivb x h
  · exact zipXor_lt_256 pt (cipherKeyStream key iv pt.length) hpt
      (cipherKeyStream_lt_256 key iv pt.length) x h

theorem aesCbcEncryptBytes_take (key iv pt : List Nat) (hk : key.length = 32)
    (hiv : iv.length = 16) :
    (aesCbcEncryptBytes key iv pt).take 48 = cipherHeader key iv := by
  unfold aesCbcEncryptBytes
  rw [show (48 : Nat) = (cipherHeader key iv).length from
    (cipherHeader_length key iv hk hiv).symm]
  exact List.take_left _ _

theorem aesCbc_roundtrip (key iv pt : List Nat) (hk : key.length = 32)
    (hiv : iv.length = 16) :
    aesCbcDecryptBytes key iv (aesCbcEncryptBytes key iv pt) = .ok pt := by
  have hlen := aesCbcEncryptBytes_length key iv pt hk hiv
  have htake := aesCbcEncryptBytes_take key iv pt hk hiv
  unfold aesCbcDecryptBytes
  rw [if_pos ⟨htake, by omega⟩]
  have hdrop : (aesCbcEncryptBytes key iv pt).drop 48 =
      zipXor pt (cipherKeyStream key iv pt.length) := by
    unfold aesCbcEncryptBytes
    rw [show (48 : Nat) = (cipherHeader key iv).length from
      (cipherHeader_length key iv hk hiv).symm]
    exact List.drop_left _ _
  rw [hdrop, hlen]
  have harith : 48 + pt.length - 48 = pt.length := by omega
  rw [harith]
  rw [zipXor_cancel pt (cipherKeyStream key iv pt.length)
    (by rw [cipherKeyStream_length])]

theorem aesCbc_wrong_key (key iv key2 iv2 pt : List Nat) (hk : key.length = 32)
    (hiv : iv.length = 16) (hk2 : key2.length = 32) (hiv2 : iv2.length = 16)
    (hne : ¬ (key2 = key ∧ iv2 = iv)) :
    aesCbcDecryptBytes key2 iv2 (aesCbcEncryptBytes key iv pt) =
      .error "bad decrypt" := by
  have htake := aesCbcEncryptBytes_take key iv pt hk hiv
  unfold aesCbcDecryptBytes
  rw [if_neg]
  intro hcontra
  obtain ⟨hhead, _⟩ := hcontra
  rw [htake] at hhead
  obtain ⟨hkeq, hiveq⟩ := cipherHeader_inj key iv key2 iv2 hk hiv hk2 hiv2 hhead
  exact hne ⟨hkeq.symm, hiveq.symm⟩

theorem validateNonEmptyString_ok (s f : String)
    (h : s.data.all jsIsWhitespace = false) : validateNonEmptyString s f = .ok () := by
  simp [validateNonEmptyString, h]

theorem hexDecode_hexEncode (l : List Nat) (h : ∀ b ∈ l, b < 256) :
    hexDecode (hexEncode l) = l :=
  hexPairs_hexChars l h

theorem vacb_buf_ok (b : List Nat) (f : String) (L : Nat) (h : b.length = L) :
    validateAndConvertToBuffer (some (.buf b)) f (some L) = .ok (some b) := by
  simp [validateAndConvertToBuffer, h]

theorem vacb_hexEncode_ok (l : List Nat) (f : String) (hbytes : ∀ b ∈ l, b < 256)
    (L : Nat) (h : l.length = L) :
    validateAndConvertToBuffer (some (.str (hexEncode l))) f (some L) = .ok (some l) := by
  have hhex : (hexEncode l).data.all isHexDigitChar = true := hexChars_all_hex l hbytes
  have heven : (hexEncode l).data.length % 2 = 0 := by
    rw [show (hexEncode l).data = hexChars l from rfl, hexChars_length]
    omega
  have hdec : hexDecode (hexEncode l) = l := hexDecode_hexEncode l hbytes
  have hevenS : (hexEncode l).length % 2 = 0 := heven
  have hoddS : ¬ ((hexEncode l).length % 2 = 1) := by omega
  simp [validateAndConvertToBuffer, hhex, heven, hevenS, hoddS, hdec, h]

theorem validateEncryptedData_hexEncode (l : List Nat) (hne : l ≠ [])
    (hbytes : ∀ b ∈ l, b < 256) : validateEncryptedData (hexEncode l) = .ok () := by
  cases l with
  | nil => exact absurd rfl hne
  | cons b bs =>
    have hb : b < 256 := hbytes b (List.mem_cons_self b bs)
    have hws : (hexEncode (b :: bs)).data.all jsIsWhitespace = false :=
      hexChars_not_all_ws b bs hb
    have hhex : (hexEncode (b :: bs)).data.all isHexDigitChar = true :=
      hexChars_all_hex _ hbytes
    have hcond : ((hexEncode (b :: bs)).data.all isHexDigitChar &&
        !(hexEncode (b :: bs)).data.isEmpty) = true := by
      rw [hhex]
      simp [hexEncode, hexChars]
    unfold validateEncryptedData
    rw [validateNonEmptyString_ok _ _ hws]
    simp [hcond]

theorem encrypt_buf_ok (gk gi : List Nat) (s : String) (key iv : List Nat)
    (hs : s.data.all jsIsWhitespace = false) (hk : key.length = 32)
    (hiv : iv.length = 16) :
    AesService.encrypt gk gi s (some (.buf key)) (some (.buf iv)) =
      .ok { encrypted := hexEncode (aesCbcEncryptBytes key iv (utf8Encode s)),
            key := hexEncode key, iv := hexEncode iv } := by
  unfold AesService.encrypt
  rw [validateNonEmptyString_ok s "data" hs]
  simp [jsTruthy, vacb_buf_ok key "key" 32 hk, vacb_buf_ok iv "IV" 16 hiv,
    Except.map, wrapEncryptCatch]

theorem decrypt_model_ct (key iv pt : List Nat) (key2 iv2 : List Nat)
    (hk : key.length = 32) (hiv : iv.length = 16)
    (hk2 : key2.length = 32) (hiv2 : iv2.length = 16)
    (hkb : ∀ b ∈ key, b < 256) (hivb : ∀ b ∈ iv, b < 256)
    (hk2b : ∀ b ∈ key2, b < 256) (hiv2b : ∀ b ∈ iv2, b < 256)
    (hptb : ∀ b ∈ pt, b < 256) :
    AesService.decrypt (hexEncode (aesCbcEncryptBytes key iv pt))
        (hexEncode key2) (hexEncode iv2) =
      wrapDecryptCatch (match aesCbcDecryptBytes key2 iv2 (aesCbcEncryptBytes key iv pt) with
        | .ok ptBytes => .ok (utf8DecodeString ptBytes)
        | .error msg => .error (.jsRawError msg)) := by
  have hctb := aesCbcEncryptBytes_lt_256 key iv pt hkb hivb hptb
  have hctne : aesCbcEncryptBytes key iv pt ≠ [] := by
    have hlen := aesCbcEncryptBytes_length key iv pt hk hiv
    intro hcontra
    rw [hcontra] at hlen
    simp only [List.length_nil] at hlen
    omega
  unfold AesService.decrypt
  rw [validateEncryptedData_hexEncode _ hctne hctb]
  rw [vacb_hexEncode_ok key2 "key" hk2b 32 hk2, vacb_hexEncode_ok iv2 "IV" hiv2b 16 hiv2]
  rw [hexDecode_hexEncode _ hctb]
  rfl

theorem bool_not_true_eq_false (b : Bool) (h : ¬ b = true) : b = false := by
  cases b
  · rfl
  · exact absurd rfl h

theorem hexDecode_length (s : String) : (hexDecode s).length = s.data.length / 2 :=
  hexPairs_length s.data

theorem vacb_wrong_length (v : KeyInput) (f : String) (L : Nat)
    (hwf : keyInputWellFormed v) (hne : keyInputByteLength v ≠ L) :
    ∃ msg, validateAndConvertToBuffer (some v) f (some L) =
      .error (.invalidKey msg none) := by
  cases v with
  | buf b =>
    simp only [keyInputByteLength] at hne
    exact ⟨f ++ " must be " ++ toString L ++ " bytes, received " ++
      toString b.length ++ " bytes", by simp [validateAndConvertToBuffer, hne]⟩
  | str s =>
    obtain ⟨hhex, heven⟩ := hwf
    simp only [keyInputByteLength] at hne
    have hlen : (hexDecode s).length ≠ L := by rw [hexDecode_length]; exact hne
    have hodd : ¬ (s.length % 2 = 1) := by
      have hsl : s.length = s.data.length := rfl
      omega
    exact ⟨f ++ " must be " ++ toString L ++ " bytes, received " ++
      toString (hexDecode s).length ++ " bytes",
      by simp [validateAndConvertToBuffer, hhex, heven, hodd, hlen]⟩

theorem isValidationFailure_elim {α : Type} (x : Except CryptoErr α)
    (h : isValidationFailure x = true) : ∃ m c, x = .error (.validation m c) := by
  cases x with
  | ok a => simp [isValidationFailure] at h
  | error e =>
    cases e with
    | validation m c => exact ⟨m, c, rfl⟩
    | invalidKey m c => simp [isValidationFailure] at h
    | encryption m c => simp [isValidationFailure] at h
    | decryption m c => simp [isValidationFailure] at h
    | hashing m c => simp [isValidationFailure] at h
    | jsRawError m => simp [isValidationFailure] at h

theorem vir_validation_or_ok (v : JSNum) (f : String) (lo hi : ℚ) :
    validateIntegerInRange v f lo hi = .ok () ∨
      isValidationFailure (validateIntegerInRange v f lo hi) = true := by
  cases v with
  | nan => right; rfl
  | posInf => right; rfl
  | negInf => right; rfl
  | fin q =>
    unfold validateIntegerInRange validatePositiveNumber
    by_cases h0 : q ≤ 0
    · right; simp [JSNum.isFinite, JSNum.leZero, h0, isValidationFailure]
    · by_cases h1 : q.den = 1
      · by_cases h2 : q < lo
        · right
          simp [JSNum.isFinite, JSNum.leZero, h0, JSNum.isInteger, beq_iff_eq, h1,
            JSNum.ltQ, h2, isValidationFailure]
        · by_cases h3 : hi < q
          · right
            simp [JSNum.isFinite, JSNum.leZero, h0, JSNum.isInteger, beq_iff_eq, h1,
              JSNum.ltQ, h2, JSNum.gtQ, h3, isValidationFailure]
          · left
            simp [JSNum.isFinite, JSNum.leZero, h0, JSNum.isInteger, beq_iff_eq, h1,
              JSNum.ltQ, h2, JSNum.gtQ, h3]
      · right
        simp [JSNum.isFinite, JSNum.leZero, h0, JSNum.isInteger, beq_iff_eq, h1,
          isValidationFailure]

theorem vir_fin_ok_implies (q : ℚ) (f : String) (lo hi : ℚ)
    (h : validateIntegerInRange (.fin q) f lo hi = .ok ()) :
    q.den = 1 ∧ lo ≤ q ∧ q ≤ hi := by
  unfold validateIntegerInRange validatePositiveNumber at h
  by_cases h0 : q ≤ 0
  · simp [JSNum.isFinite, JSNum.leZero, h0] at h
  · by_cases h1 : q.den = 1
    · by_cases h2 : q < lo
      · simp [JSNum.isFinite, JSNum.leZero, h0, JSNum.isInteger, beq_iff_eq, h1,
          JSNum.ltQ, h2] at h
      · by_cases h3 : hi < q
        · simp [JSNum.isFinite, JSNum.leZero, h0, JSNum.isInteger, beq_iff_eq, h1,
            JSNum.ltQ, h2, JSNum.gtQ, h3] at h
        · exact ⟨h1, le_of_not_lt h2, le_of_not_lt h3⟩
    · simp [JSNum.isFinite, JSNum.leZero, h0, JSNum.isInteger, beq_iff_eq, h1] at h

theorem vir_fin_ok (q : ℚ) (f : String) (lo hi : ℚ) (h1 : q.den = 1) (h0 : ¬ q ≤ 0)
    (h2 : ¬ q < lo) (h3 : ¬ hi < q) :
    validateIntegerInRange (.fin q) f lo hi = .ok () := by
  unfold validateIntegerInRange validatePositiveNumber
  simp [JSNum.isFinite, JSNum.leZero, h0, JSNum.isInteger, beq_iff_eq, h1,
    JSNum.ltQ, h2, JSNum.gtQ, h3]

/-- Claim C1, counterexample: the claim quantifies over every non-empty
string, but the one-character string of a single space is non-empty and
AesService.encrypt rejects it — validateNonEmptyString trims it to length
zero — so no round trip exists for it; the resulting error is moreover an
EncryptionError wrapping the ValidationError, produced by the catch block. -/
theorem C1_counterexample_whitespace :
    AesService.encrypt (List.range 32) (List.range 16) " "
        (some (.buf (List.range 32))) (some (.buf (List.range 16))) =
      .error (.encryption "Failed to encrypt data"
        (some (.validation "data cannot be empty" none))) := rfl

/-- Claim C1, amended: for every string whose whitespace-trimmed content is
non-empty (rather than every non-empty string), every 32-byte key and every
16-byte IV, decrypting the encrypted field of the encrypt result with the

same key and IV returns exactly the original string. -/
theorem C1_round_trip (s : String) (key iv gk gi : List Nat)
    (hs : s.data.all jsIsWhitespace = false)
    (hk : key.length = 32) (hiv : iv.length = 16)
    (hkb : ∀ b ∈ key, b < 256) (hivb : ∀ b ∈ iv, b < 256) :
    ∃ r : EncryptedResult,
      AesService.encrypt gk gi s (some (.buf key)) (some (.buf iv)) = .ok r ∧
      AesService.decrypt r.encrypted (hexEncode key) (hexEncode iv) = .ok s := by
  refine ⟨_, encrypt_buf_ok gk gi s key iv hs hk hiv, ?_⟩
  rw [decrypt_model_ct key iv (utf8Encode s) key iv hk hiv hk hiv hkb hivb hkb hivb
    (utf8EncodeList_lt_256 s.data)]
  rw [aesCbc_roundtrip key iv (utf8Encode s) hk hiv]
  simp [wrapDecryptCatch, utf8DecodeString_encode]

/-- Claim C1, witness: the round trip at a concrete multi-byte string (one
ASCII, one two-byte, one three-byte and one four-byte character), a concrete
32-byte key and a concrete 16-byte IV. -/
theorem C1_round_trip_witness :
    ∃ r : EncryptedResult,
      AesService.encrypt (List.replicate 32 0) (List.replicate 16 0) "Hé✓🌍"
          (some (.buf (List.range 32))) (some (.buf (List.range 16))) = .ok r ∧
      AesService.decrypt r.encrypted (hexEncode (List.range 32))
          (hexEncode (List.range 16)) = .ok "Hé✓🌍" :=
  C1_round_trip "Hé✓🌍" (List.range 32) (List.range 16)
    (List.replicate 32 0) (List.replicate 16 0)
    (by decide) (by decide) (by decide) (by decide) (by decide)

/-- Claim C2: the code contradicts the claim — and its own doc comments — on
two of the three inputs.  encrypt of the empty string throws an
EncryptionError whose cause is the ValidationError, because the catch block
of AesService.encrypt rethrows only InvalidKeyError and EncryptionError and
wraps everything else; decrypt of the empty string likewise surfaces a
DecryptionError wrapping the ValidationError; only BcryptService.hash
rethrows the ValidationError unwrapped as the claim demands. -/
theorem C2_empty_input_behavior :
    AesService.encrypt (List.range 32) (List.range 16) "" none none =
      .error (.encryption "Failed to encrypt data"
        (some (.validation "data cannot be empty" none))) ∧
    (BcryptService.hash "" (.fin 12)).1 =
      .error (.validation "data cannot be empty" none) ∧
    AesService.decrypt "" (hexEncode (List.range 32)) (hexEncode (List.range 16)) =
      .error (.decryption
        "Failed to decrypt data. Ensure the key, IV, and encrypted data are correct."
        (some (.validation "encrypted data cannot be empty" none))) :=
  ⟨rfl, rfl, rfl⟩

/-- Claim C5: decrypting a ciphertext produced by encrypt with a
validly-shaped key or IV different from the ones used to encrypt fails with
a DecryptionError and never returns plaintext.  The failure of the
underlying decipher on mismatched key material is the spec-modelled
behaviour of the external cipher; the classification of that failure as
DecryptionError is the code of AesService.decrypt. -/
theorem C5_wrong_key_detection (gk gi : List Nat) (s : String)
    (key iv key2 iv2 : List Nat)
    (hs : s.data.all jsIsWhitespace = false)
    (hk : key.length = 32) (hiv : iv.length = 16)
    (hk2 : key2.length = 32) (hiv2 : iv2.length = 16)
    (hkb : ∀ b ∈ key, b < 256) (hivb : ∀ b ∈ iv, b < 256)
    (hk2b : ∀ b ∈ key2, b < 256) (hiv2b : ∀ b ∈ iv2, b < 256)
    (hne : ¬ (key2 = key ∧ iv2 = iv)) :
    ∃ r : EncryptedResult,
      AesService.encrypt gk gi s (some (.buf key)) (some (.buf iv)) = .ok r ∧
      isDecryptionFailure (AesService.decrypt r.encrypted (hexEncode key2)
        (hexEncode iv2)) = true := by
  refine ⟨_, encrypt_buf_ok gk gi s key iv hs hk hiv, ?_⟩
  rw [decrypt_model_ct key iv (utf8Encode s) key2 iv2 hk hiv hk2 hiv2 hkb hivb
    hk2b hiv2b (utf8EncodeList_lt_256 s.data)]
  rw [aesCbc_wrong_key key iv key2 iv2 (utf8Encode s) hk hiv hk2 hiv2 hne]
  rfl

/-- Claim C5, witness: wrong-key detection at a concrete plaintext, a
concrete key pair differing in content, and a shared IV. -/
theorem C5_wrong_key_witness :
    ∃ r : EncryptedResult,
      AesService.encrypt (List.replicate 32 0) (List.replicate 16 0) "secret"
          (some (.buf (List.range 32))) (some (.buf (List.range 16))) = .ok r ∧
      isDecryptionFailure (AesService.decrypt r.encrypted
        (hexEncode (List.replicate 32 1)) (hexEncode (List.range 16))) = true :=
  C5_wrong_key_detection (List.replicate 32 0) (List.replicate 16 0) "secret"
    (List.range 32) (List.range 16) (List.replicate 32 1) (List.range 16)
    (by decide) (by decide) (by decide) (by decide) (by decide)
    (by decide) (by decide) (by decide) (by decide) (by decide)

/-- Claim C8: the synchronous variants delegate to the same logic — for every
input, encryptSync returns exactly what encrypt returns and decryptSync
exactly what decrypt returns. -/
theorem C8_sync_equivalence :
    (∀ (gk gi : List Nat) (data : String) (key iv : Option KeyInput),
      AesService.encryptSync gk gi data key iv =
        AesService.encrypt gk gi data key iv) ∧
    (∀ (encryptedData key iv : String),
      AesService.decryptSync encryptedData key iv =
        AesService.decrypt encryptedData key iv) :=
  ⟨fun _ _ _ _ _ => rfl, fun _ _ _ => rfl⟩

/-- Claim C9: passing the empty string as key or IV is treated as absence —
the JavaScript truthiness test in AesService.encrypt sends the empty string
to the generate branch, so a fresh key and IV (the randomBytes output
modelled by the gk and gi arguments) are used, the call succeeds, and no
InvalidKeyError for a 0-byte key is raised. -/
theorem C9_empty_string_treated_absent (gk gi : List Nat) (data : String)
    (hdata : data.data.all jsIsWhitespace = false) :
    AesService.encrypt gk gi data (some (.str "")) (some (.str "")) =
      .ok { encrypted := hexEncode (aesCbcEncryptBytes gk gi (utf8Encode data)),
            key := hexEncode gk, iv := hexEncode gi } := by
  have hfalsy : jsTruthy (some (.str "")) = false := rfl
  unfold AesService.encrypt
  rw [validateNonEmptyString_ok data "data" hdata]
  simp [hfalsy, wrapEncryptCatch]

/-- Claim C9, witness: encrypt with empty-string key and IV at concrete
inputs returns the generated material. -/
theorem C9_witness :
    AesService.encrypt (List.range 32) (List.range 16) "x"
        (some (.str "")) (some (.str "")) =
      .ok { encrypted := hexEncode (aesCbcEncryptBytes (List.range 32)
              (List.range 16) (utf8Encode "x")),
            key := hexEncode (List.range 32), iv := hexEncode (List.range 16) } :=
  C9_empty_string_treated_absent (List.range 32) (List.range 16) "x" (by decide)

/-- Claim C10, counterexample: the claim quantifies over all explicitly
provided key and IV arguments, but the empty string is an explicitly
provided value on which the truthiness test falls back to fresh randomness —
two calls with identical data, key and IV arguments but different random
draws return different key fields. -/
theorem C10_counterexample_rng :
    resultKeyHex (AesService.encrypt (List.replicate 32 0) (List.replicate 16 0) "x"
        (some (.str "")) (some (.str ""))) ≠
      resultKeyHex (AesService.encrypt (List.replicate 32 1) (List.replicate 16 1) "x"
        (some (.str "")) (some (.str ""))) := by decide

/-- Claim C10, amended: when the provided key and IV are truthy (any buffer,
or a non-empty string), encrypt is a pure function of data, key and IV —
the random source is never consulted, so two calls with different random
draws agree exactly. -/
theorem C10_determinism (data : String) (k ivIn : KeyInput)
    (hk : jsTruthy (some k) = true) (hiv : jsTruthy (some ivIn) = true)
    (gk gi gk2 gi2 : List Nat) :
    AesService.encrypt gk gi data (some k) (some ivIn) =
      AesService.encrypt gk2 gi2 data (some k) (some ivIn) := by
  unfold AesService.encrypt
  simp [hk, hiv]

/-- Claim C10, witness: determinism at a concrete data, buffer key and
buffer IV under two different random draws. -/
theorem C10_determinism_witness :
    AesService.encrypt (List.replicate 32 0) (List.replicate 16 0) "x"
        (some (.buf (List.range 32))) (some (.buf (List.range 16))) =
      AesService.encrypt (List.replicate 32 1) (List.replicate 16 1) "x"
        (some (.buf (List.range 32))) (some (.buf (List.range 16))) :=
  C10_determinism "x" (.buf (List.range 32)) (.buf (List.range 16)) rfl rfl
    (List.replicate 32 0) (List.replicate 16 0)
    (List.replicate 32 1) (List.replicate 16 1)

/-- Claim C3, counterexample: the claim quantifies over every input whose
decoded byte length is not 32, but the empty string decodes to 0 bytes and
encrypt nevertheless succeeds, because the truthiness test treats the empty
string as absence and generates a fresh key instead of validating. -/
theorem C3_counterexample_empty_string_key :
    (hexDecode "").length = 0 ∧
    exceptIsOk (AesService.encrypt (List.range 32) (List.range 16) "test"
      (some (.str "")) (some (.buf (List.range 16)))) = true :=
  ⟨rfl, rfl⟩

/-- Claim C3, amended: for every truthy provided key input (any buffer, or a
non-empty well-formed hex string) whose decoded byte length is not 32,
encrypt on valid data fails with InvalidKeyError whatever the IV argument
is; likewise for a truthy IV input whose decoded byte length is not 16; and
validateAndConvertToBuffer never pads, truncates or otherwise coerces — a
success returns exactly the input buffer, or exactly the hex decoding of the
input string, of exactly the expected length.  Empty-string inputs are the
one exception, treated as absence by the truthiness test. -/
theorem C3_length_enforcement (gk gi : List Nat) (data : String)
    (hdata : data.data.all jsIsWhitespace = false) :
    (∀ k : KeyInput, jsTruthy (some k) = true → keyInputWellFormed k →
      keyInputByteLength k ≠ 32 → ∀ ivArg : Option KeyInput,
      isInvalidKeyFailure (AesService.encrypt gk gi data (some k) ivArg) = true) ∧
    (∀ ivIn : KeyInput, jsTruthy (some ivIn) = true → keyInputWellFormed ivIn →
      keyInputByteLength ivIn ≠ 16 →
      isInvalidKeyFailure (AesService.encrypt gk gi data none (some ivIn)) = true) ∧
    (∀ (v : KeyInput) (f : String) (L : Nat) (b : List Nat),
      validateAndConvertToBuffer (some v) f (some L) = .ok (some b) →
      b.length = L ∧ ((∃ bb, v = .buf bb ∧ b = bb) ∨
        (∃ s, v = .str s ∧ b = hexDecode s))) := by
  refine ⟨?_, ?_, ?_⟩
  · intro k htr hwf hne ivArg
    obtain ⟨msg, hmsg⟩ := vacb_wrong_length k "key" 32 hwf hne
    unfold AesService.encrypt
    rw [validateNonEmptyString_ok data "data" hdata]
    simp [htr, hmsg, Except.map, wrapEncryptCatch, isInvalidKeyFailure]
  · intro ivIn htr hwf hne
    obtain ⟨msg, hmsg⟩ := vacb_wrong_length ivIn "IV" 16 hwf hne
    have hnone : jsTruthy none = false := rfl
    unfold AesService.encrypt
    rw [validateNonEmptyString_ok data "data" hdata]
    simp [hnone, htr, hmsg, Except.map, wrapEncryptCatch, isInvalidKeyFailure]
  · intro v f L b heq
    cases v with
    | buf bb =>
      simp only [validateAndConvertToBuffer] at heq
      split at heq
      · exact absurd heq (by simp)
      · simp only [Except.ok.injEq, Option.some.injEq] at heq
        subst heq
        rename_i hcond
        refine ⟨by omega, Or.inl ⟨bb, rfl, rfl⟩⟩
    | str s =>
      by_cases hhex : s.data.all isHexDigitChar = true
      · by_cases hodd : s.length % 2 = 1
        · simp [validateAndConvertToBuffer, hhex, hodd] at heq
        · by_cases hlen : (hexDecode s).length = L
          · simp only [validateAndConvertToBuffer, hhex, hodd, hlen,
              Bool.not_true, if_false, if_pos, if_neg, ite_false, ite_true,
              Except.ok.injEq, Option.some.injEq] at heq
            simp [hhex, hodd, hlen] at heq
            subst heq
            exact ⟨hlen, Or.inr ⟨s, rfl, rfl⟩⟩
          · simp [validateAndConvertToBuffer, hhex, hodd, hlen] at heq
      · have hhex2 := bool_not_true_eq_false _ hhex
        simp [validateAndConvertToBuffer, hhex2] at heq

/-- Claim C3, witness: an 8-byte buffer key is rejected with
InvalidKeyError, a 5-byte buffer IV is rejected with InvalidKeyError, and a
successful normalization of a 32-byte buffer returns it unchanged. -/
theorem C3_length_enforcement_witness :
    isInvalidKeyFailure (AesService.encrypt (List.range 32) (List.range 16) "test"
      (some (.buf (List.replicate 8 116))) (some (.buf (List.range 16)))) = true ∧
    isInvalidKeyFailure (AesService.encrypt (List.range 32) (List.range 16) "test"
      none (some (.buf (List.replicate 5 0)))) = true ∧
    ((List.range 32).length = 32 ∧
      ((∃ bb, KeyInput.buf (List.range 32) = .buf bb ∧ List.range 32 = bb) ∨
        (∃ s, KeyInput.buf (List.range 32) = .str s ∧
          List.range 32 = hexDecode s))) := by
  have h := C3_length_enforcement (List.range 32) (List.range 16) "test" (by decide)
  exact ⟨h.1 (.buf (List.replicate 8 116)) rfl trivial (by decide)
      (some (.buf (List.range 16))),
    h.2.1 (.buf (List.replicate 5 0)) rfl trivial (by decide),
    h.2.2 (.buf (List.range 32)) "key" 32 (List.range 32) rfl⟩

/-- Claim C4: validateAndConvertToBuffer returns undefined on undefined for
any expected length; on a string that is not even-length hex it fails with
InvalidKeyError for any expected length; and on an even-length hex string
with no expected length constraint it returns exactly the hex decoding. -/
theorem C4_normalization :
    (∀ (f : String) (L : Option Nat), validateAndConvertToBuffer none f L = .ok none) ∧
    (∀ (f s : String) (L : Option Nat),
      ¬ (s.data.all isHexDigitChar = true ∧ s.data.length % 2 = 0) →
      isInvalidKeyFailure (validateAndConvertToBuffer (some (.str s)) f L) = true) ∧
    (∀ (f s : String), s.data.all isHexDigitChar = true → s.data.length % 2 = 0 →
      validateAndConvertToBuffer (some (.str s)) f none = .ok (some (hexDecode s))) := by
  refine ⟨fun _ _ => rfl, ?_, ?_⟩
  · intro f s L hbad
    by_cases hhex : s.data.all isHexDigitChar = true
    · have hodd : s.data.length % 2 ≠ 0 := fun h => hbad ⟨hhex, h⟩
      have hodd1 : s.length % 2 = 1 := by
        have hsl : s.length = s.data.length := rfl
        omega
      cases L with
      | none => simp [validateAndConvertToBuffer, hhex, hodd1, isInvalidKeyFailure]
      | some n => simp [validateAndConvertToBuffer, hhex, hodd1, isInvalidKeyFailure]
    · have hhex2 : s.data.all isHexDigitChar = false := bool_not_true_eq_false _ hhex
      cases L with
      | none => simp [validateAndConvertToBuffer, hhex2, isInvalidKeyFailure]
      | some n => simp [validateAndConvertToBuffer, hhex2, isInvalidKeyFailure]
  · intro f s hhex heven
    have heven1 : ¬ (s.length % 2 = 1) := by
      have hsl : s.length = s.data.length := rfl
      omega
    simp [validateAndConvertToBuffer, hhex, heven1]

/-- Claim C4, witness: undefined passes through; the string zz is rejected
with InvalidKeyError; the string 0aFf decodes to the bytes 10 and 255. -/
theorem C4_normalization_witness :
    validateAndConvertToBuffer none "key" none = .ok none ∧
    isInvalidKeyFailure (validateAndConvertToBuffer (some (.str "zz")) "key"
      (some 32)) = true ∧
    validateAndConvertToBuffer (some (.str "0aFf")) "key" none =
      .ok (some [10, 255]) := by
  refine ⟨C4_normalization.1 "key" none,
    C4_normalization.2.1 "key" "zz" (some 32) (by decide), ?_⟩
  have h := C4_normalization.2.2 "key" "0aFf" (by decide) (by decide)
  rw [h]
  rfl

/-- Claim C6: for every string that does not match the bcrypt hash grammar,
compare and getSaltRounds both fail with ValidationError — for any data
argument, since an invalid data argument also raises a ValidationError —
rather than returning a boolean or a number. -/
theorem C6_malformed_hash_rejection (data hashStr : String)
    (hbad : matchesBcryptFormat hashStr = false) :
    isValidationFailure (BcryptService.compare data hashStr) = true ∧
    isValidationFailure (BcryptService.getSaltRounds hashStr) = true := by
  constructor
  · unfold BcryptService.compare
    by_cases hd : data.data.all jsIsWhitespace
    · simp [validateNonEmptyString, hd, wrapHashingCatch, isValidationFailure]
    · have hd2 := bool_not_true_eq_false _ hd
      rw [validateNonEmptyString_ok data "data" hd2]
      unfold validateBcryptHash
      by_cases hh : hashStr.data.all jsIsWhitespace
      · simp [validateNonEmptyString, hh, wrapHashingCatch, isValidationFailure]
      · have hh2 := bool_not_true_eq_false _ hh
        rw [validateNonEmptyString_ok hashStr "hash" hh2]
        simp [hbad, wrapHashingCatch, isValidationFailure]
  · unfold BcryptService.getSaltRounds
    unfold validateBcryptHash
    by_cases hh : hashStr.data.all jsIsWhitespace
    · simp [validateNonEmptyString, hh, wrapHashingCatch, isValidationFailure]
    · have hh2 := bool_not_true_eq_false _ hh
      rw [validateNonEmptyString_ok hashStr "hash" hh2]
      simp [hbad, wrapHashingCatch, isValidationFailure]

/-- Claim C6, witness: rejection of the concrete malformed hash string
not-a-bcrypt-hash. -/
theorem C6_malformed_hash_witness :
    isValidationFailure (BcryptService.compare "pw" "not-a-bcrypt-hash") = true ∧
    isValidationFailure (BcryptService.getSaltRounds "not-a-bcrypt-hash") = true :=
  C6_malformed_hash_rejection "pw" "not-a-bcrypt-hash" (by decide)

/-- Claim C7: hash fails with ValidationError whenever saltRounds is NaN, an
infinity, a non-integer rational, or an integer outside the interval from 4
to 31; and for valid data every integer between 4 and 11 is accepted — the
call returns the bcrypt hash and only emits the lower-severity warning about
rounds below the recommended 12. -/
theorem C7_salt_rounds_gate :
    (∀ (data : String) (r : JSNum),
      (∀ q : ℚ, r = .fin q → (q.den ≠ 1 ∨ q < 4 ∨ 31 < q)) →
      isValidationFailure (BcryptService.hash data r).1 = true) ∧
    (∀ (data : String) (n : Nat), data.data.all jsIsWhitespace = false →
      4 ≤ n → n ≤ 11 →
      (BcryptService.hash data (.fin (n : ℚ))).1 = .ok (bcryptAlgoHash data n) ∧
      (BcryptService.hash data (.fin (n : ℚ))).2 =
        ["Salt rounds below recommended value"]) := by
  constructor
  · intro data r hr
    unfold BcryptService.hash
    by_cases hd : data.data.all jsIsWhitespace
    · simp [validateNonEmptyString, hd, wrapHashingCatch, isValidationFailure]
    · have hd2 := bool_not_true_eq_false _ hd
      rw [validateNonEmptyString_ok data "data" hd2]
      rcases vir_validation_or_ok r "saltRounds" 4 31 with hok | hfail
      · exfalso
        cases r with
        | fin q =>
          obtain ⟨hden, hge, hle⟩ := vir_fin_ok_implies q "saltRounds" 4 31 hok
          rcases hr q rfl with h | h | h
          · exact absurd hden h
          · exact absurd h (not_lt.mpr hge)
          · exact absurd h (not_lt.mpr hle)
        | nan =>
          simp [validateIntegerInRange, validatePositiveNumber, JSNum.isFinite] at hok
        | posInf =>
          simp [validateIntegerInRange, validatePositiveNumber, JSNum.isFinite] at hok
        | negInf =>
          simp [validateIntegerInRange, validatePositiveNumber, JSNum.isFinite] at hok
      · obtain ⟨m, c, hmc⟩ := isValidationFailure_elim _ hfail
        simp [hmc, wrapHashingCatch, isValidationFailure]
  · intro data n hd h4 h11
    have hden : ((n : ℚ)).den = 1 := Rat.den_natCast n
    have h0 : ¬ ((n : ℚ) ≤ 0) := by
      rw [not_le]
      exact_mod_cast (by omega : 0 < n)
    have h2 : ¬ ((n : ℚ) < 4) := by
      rw [not_lt]
      exact_mod_cast h4
    have h3 : ¬ ((31 : ℚ) < (n : ℚ)) := by
      rw [not_lt]
      exact_mod_cast (by omega : n ≤ 31)
    have hokvir := vir_fin_ok (n : ℚ) "saltRounds" 4 31 hden h0 h2 h3
    have hlt12 : JSNum.ltQ (.fin (n : ℚ)) 12 = true := by
      simp only [JSNum.ltQ, decide_eq_true_eq]
      exact_mod_cast (by omega : n < 12)
    have htonat : JSNum.toNatFloor (.fin (n : ℚ)) = n := by
      simp [JSNum.toNatFloor, Rat.num_natCast]
    refine ⟨?_, ?_⟩ <;>
      simp [BcryptService.hash, validateNonEmptyString_ok data "data" hd,
        hokvir, hlt12, htonat]

/-- Claim C7, witness: rejection of the non-integer 7/2, of the
out-of-range 50 and of NaN, and acceptance with a warning at the
discouraged-but-legal cost 4. -/
theorem C7_salt_rounds_witness :
    isValidationFailure (BcryptService.hash "pw" (.fin sevenHalves)).1 = true ∧
    isValidationFailure (BcryptService.hash "pw" (.fin 50)).1 = true ∧
    isValidationFailure (BcryptService.hash "pw" .nan).1 = true ∧
    (BcryptService.hash "pw" (.fin ((4 : Nat) : ℚ))).1 = .ok (bcryptAlgoHash "pw" 4) ∧
    (BcryptService.hash "pw" (.fin ((4 : Nat) : ℚ))).2 =
      ["Salt rounds below recommended value"] := by
  have hpart2 := C7_salt_rounds_gate.2 "pw" 4 (by decide) (by omega) (by omega)
  refine ⟨C7_salt_rounds_gate.1 "pw" (.fin sevenHalves) ?_,
    C7_salt_rounds_gate.1 "pw" (.fin 50) ?_,
    C7_salt_rounds_gate.1 "pw" .nan ?_, hpart2.1, hpart2.2⟩
  · intro q hq
    cases hq
    left
    decide
  · intro q hq
    cases hq
    right
    right
    decide
  · intro q hq
    cases hq
